import Mathlib

/-!
Verification of the multi-server MCP tool-invocation client
(`src/agent/tools/mcp_client.py`) against its specification.

The embedding models:
- `MCPServer` (from `agent/config.py`): name, command, args, env;
- the per-call stdio session (`MCPClient._with_session`): spawn, handshake,
  exchanges, unconditional teardown via the two nested `async with` blocks;
- `MCPClient.call_tool` (candidate filtering, per-candidate existence check,
  failover loop, aggregated failure);
- `MCPClient.list_tools` (per-server query, failure-to-empty policy,
  dict accumulation with Python dict overwrite semantics);
- `MCPClient.start_all` (supervisor: skip-live, spawn, swallow failures).

External server processes are modelled by a `Behavior`: for each descriptor,
whether its process spawns, whether the initialize handshake succeeds, and
the outcomes of the list-tools and call-tool exchanges.  Each public
operation returns its result together with a trace of session events
(session opened, exchanges issued, teardown), so that ordering, contact and
resource-balance properties can be stated.
-/

/-- `agent.config.MCPServer`: name, command, args (default `[]`),
env (default `{}`, modelled as an association list without duplicate keys). -/
structure MCPServer where
  name : String
  command : String
  args : List String
  env : List (String × String)
deriving DecidableEq, Repr

/-- Failure of a single server attempt: process spawn failure, initialize
handshake failure, expiry of a wait (cancellation injected by the runtime),
the `RuntimeError("tool_not_found")` raised by `_try_call`, or any other
exchange-level exception. -/
inductive SessionFailure where
  | spawnError
  | handshakeError
  | timeoutExpired
  | toolNotFound
  | exchangeError (msg : String)
deriving DecidableEq, Repr

/-- The wire `CallToolResult`: an optional `content` field plus an opaque
remainder; `call_tool` surfaces `getattr(result, "content", result)`. -/
structure RawResult where
  content : Option String
  rest : String
deriving DecidableEq, Repr

/-- What `call_tool` returns on success: the `content` field when the
payload has one, otherwise the raw payload. -/
inductive Surfaced where
  | fromContent (s : String)
  | whole (r : RawResult)
deriving DecidableEq, Repr

/-- Observable behavior of one external server process: whether it spawns,
whether the handshake succeeds, and the outcome of each protocol exchange. -/
structure ServerBehavior where
  spawnOk : Bool
  handshake : Except SessionFailure Unit
  listToolsRes : Except SessionFailure (List String)
  callToolRes : String → List (String × String) → Except SessionFailure RawResult

/-- The environment of external servers: a behavior for each descriptor. -/
def Behavior : Type := MCPServer → ServerBehavior

/-- Session events observable from outside the client: a session opened
(process spawned and streams connected), a protocol exchange issued, and a
session torn down (streams closed, process terminated). -/
inductive MCPEvent where
  | sessionOpen (srv : MCPServer)
  | listExchange (srv : MCPServer)
  | callExchange (srv : MCPServer) (tool : String)
  | teardown (srv : MCPServer)
deriving DecidableEq, Repr

/-- `MCPClient._with_session`: spawn the server, establish the transport,
run the initialize handshake, run the operation, and tear the session down
on every exit path (the two nested `async with` blocks run their exits
whether the operation succeeded or raised).  If the spawn itself fails no
session is opened, so there is nothing to tear down. -/
def with_session (beh : Behavior) (srv : MCPServer)
    (op : ServerBehavior → Except SessionFailure α × List MCPEvent) :
    Except SessionFailure α × List MCPEvent :=
  let b := beh srv
  if b.spawnOk then
    match b.handshake with
    | .error e => (.error e, [.sessionOpen srv, .teardown srv])
    | .ok _ =>
      let p := op b
      (p.1, .sessionOpen srv :: (p.2 ++ [.teardown srv]))
  else (.error .spawnError, [])

/-- `_try_call` in `MCPClient.call_tool`: inside one session, first issue the
list-tools exchange, check the requested name is advertised (raising
`tool_not_found` if absent), then issue the call-tool exchange and surface
the payload's `content` field when present. -/
def try_call (beh : Behavior) (srv : MCPServer) (toolName : String)
    (args : List (String × String)) :
    Except SessionFailure Surfaced × List MCPEvent :=
  with_session beh srv (fun b =>
    match b.listToolsRes with
    | .error e => (.error e, [.listExchange srv])
    | .ok names =>
      if toolName ∈ names then
        match b.callToolRes toolName args with
        | .error e => (.error e, [.listExchange srv, .callExchange srv toolName])
        | .ok r =>
          (.ok (match r.content with
                | some s => .fromContent s
                | none => .whole r),
           [.listExchange srv, .callExchange srv toolName])
      else (.error .toolNotFound, [.listExchange srv]))

/-- The candidate filter of `call_tool` and the skip test of `list_tools`:
`not server_name or s.name == server_name`.  Python truthiness makes both
`None` and the empty string act as "no pin". -/
def keepCandidate (serverName : Option String) (s : MCPServer) : Bool :=
  match serverName with
  | none => true
  | some sn => if sn = "" then true else s.name == sn

/-- `servers = [s for s in self.servers if (not server_name or s.name == server_name)]`. -/
def candidatesOf (servers : List MCPServer) (serverName : Option String) :
    List MCPServer :=
  servers.filter (keepCandidate serverName)

/-- Top-level failures of `call_tool`: no matching server configured
(`未找到匹配的 MCP 服务器配置`), or all candidates exhausted
(`工具调用失败：{name}; 最后错误：{last_err}` — the diagnostic carries the
tool name and the last recorded error). -/
inductive CallError where
  | noMatchingServer
  | toolInvocationFailed (name : String) (last : Option SessionFailure)
deriving DecidableEq, Repr

/-- The failover loop of `_run_all`: try each candidate in order, return the
first success, record each failure as `last_err`, and raise
`toolInvocationFailed` with the last recorded error once exhausted. -/
def runAllLoop (beh : Behavior) (toolName : String)
    (args : List (String × String)) :
    List MCPServer → Option SessionFailure →
    Except CallError Surfaced × List MCPEvent
  | [], last => (.error (.toolInvocationFailed toolName last), [])
  | srv :: rest, _last =>
    let p := try_call beh srv toolName args
    match p.1 with
    | .ok v => (.ok v, p.2)
    | .error e =>
      let q := runAllLoop beh toolName args rest (some e)
      (q.1, p.2 ++ q.2)

/-- `MCPClient.call_tool`: default arguments to `{}`, filter the candidate
list by `server_name`, fail if it is empty, otherwise run the failover
loop. -/
def call_tool (beh : Behavior) (servers : List MCPServer) (toolName : String)
    (arguments : Option (List (String × String)))
    (serverName : Option String) :
    Except CallError Surfaced × List MCPEvent :=
  let args := arguments.getD []
  let cands := candidatesOf servers serverName
  if cands.isEmpty then (.error .noMatchingServer, [])
  else runAllLoop beh toolName args cands none

/-- Association-list lookup with Python-dict semantics (a dict has at most
one entry per key; lookup finds it). -/
def dictLookup (k : String) : List (String × α) → Option α
  | [] => none
  | (k', v) :: rest => if k' = k then some v else dictLookup k rest

/-- Python `d[k] = v`: overwrite in place when the key exists (keeping its
position), otherwise append at the end (insertion order). -/
def dictInsert (k : String) (v : α) :
    List (String × α) → List (String × α)
  | [] => [(k, v)]
  | (k', v') :: rest =>
    if k' = k then (k', v) :: rest else (k', v') :: dictInsert k v rest

/-- The session body of `_list_for_srv`: the list-tools exchange, returning
the advertised tool names. -/
def listQuery (beh : Behavior) (srv : MCPServer) :
    Except SessionFailure (List String) × List MCPEvent :=
  with_session beh srv (fun b =>
    match b.listToolsRes with
    | .error e => (.error e, [.listExchange srv])
    | .ok names => (.ok names, [.listExchange srv]))

/-- `_list_for_srv`: query one server for its tools; on any exception return
the empty list for that server. -/
def list_for_srv (beh : Behavior) (srv : MCPServer) :
    List String × List MCPEvent :=
  let p := listQuery beh srv
  match p.1 with
  | .ok names => (names, p.2)
  | .error _ => ([], p.2)

/-- The tool names `list_tools` reports for one server (its advertised
names, or `[]` when the query failed). -/
def listedNames (beh : Behavior) (srv : MCPServer) : List String :=
  (list_for_srv beh srv).1

/-- The loop of `_gather`: skip servers not matching the (truthy) pin, query
each remaining server, and store its names under its name in the result
dict. -/
def gatherLoop (beh : Behavior) (serverName : Option String) :
    List MCPServer → List (String × List String) →
    List (String × List String) × List MCPEvent
  | [], acc => (acc, [])
  | srv :: rest, acc =>
    if keepCandidate serverName srv then
      let p := list_for_srv beh srv
      let q := gatherLoop beh serverName rest (dictInsert srv.name p.1 acc)
      (q.1, p.2 ++ q.2)
    else gatherLoop beh serverName rest acc

/-- `MCPClient.list_tools`: gather per-server tool name lists into a dict
keyed by server name.  It never raises: per-server failures become `[]` and
an empty registry yields an empty dict. -/
def list_tools (beh : Behavior) (servers : List MCPServer)
    (serverName : Option String) :
    List (String × List String) × List MCPEvent :=
  gatherLoop beh serverName servers []

/-- The read-timeout `_with_session` configures on each session:
`ClientSession(read_stream, write_stream)` leaves the SDK's
`read_timeout_seconds` parameter at its default `None`, and no session step
(spawn, initialize handshake, list-tools exchange, call-tool exchange) is
wrapped in any timeout (`asyncio.run` and the awaits carry no bound). -/
def sessionReadTimeout : Option Nat := none

/-- Whether the client imposes a bounded wait on session steps: it does
exactly when a read timeout is configured. -/
def sessionStepBounded : Bool := sessionReadTimeout.isSome

/-- Environment merge of `start_all`: `env = os.environ.copy();
env.update(srv.env or {})` — each override is written into a copy of the
inherited environment, the override winning on key collision. -/
def mergeEnv (inherited overrides : List (String × String)) :
    List (String × String) :=
  overrides.foldl (fun acc kv => dictInsert kv.1 kv.2 acc) inherited

/-- The environment `start_all` launches a server with. -/
def startAllEnv (inherited : List (String × String)) (srv : MCPServer) :
    List (String × String) :=
  mergeEnv inherited srv.env

/-- The `env` argument `_with_session` passes to `StdioServerParameters`:
`env=(srv.env or None)` — the descriptor's overrides alone (an empty dict
becomes `None`), with no merge against the inherited environment. -/
def sessionEnvParam (srv : MCPServer) : Option (List (String × String)) :=
  if srv.env = [] then none else some srv.env

/-- The environment a per-call session's process is spawned with, per the
stdio transport's documented contract: exactly the given `env` when one is
specified, otherwise the transport's own restricted default environment
(kept abstract here as `defaultEnv`). -/
def sessionSpawnEnv (defaultEnv : List (String × String)) (srv : MCPServer) :
    List (String × String) :=
  match sessionEnvParam srv with
  | some e => e
  | none => defaultEnv

/-- A tracked subprocess handle: `alive` models `poll() is None`. -/
structure ProcRec where
  pid : Nat
  alive : Bool
deriving DecidableEq, Repr

/-- `self.processes`: name → tracked process handle. -/
def ProcTable : Type := List (String × ProcRec)

/-- `srv.name in self.processes and self.processes[srv.name].poll() is None`. -/
def trackedLive (st : ProcTable) (n : String) : Bool :=
  match dictLookup n st with
  | some p => p.alive
  | none => false

/-- Spawn outcome for each descriptor: `some p` when `subprocess.Popen`
returns handle `p`, `none` when it raises. -/
def SpawnBehavior : Type := MCPServer → Option ProcRec

/-- The loop of `start_all`: skip servers already tracked with a live
process; otherwise spawn — on success record the handle and report the
name, on failure silently continue with the remaining servers. -/
def startAllFrom (beh : SpawnBehavior) :
    ProcTable → List MCPServer → List String × ProcTable
  | st, [] => ([], st)
  | st, srv :: rest =>
    if trackedLive st srv.name then startAllFrom beh st rest
    else
      match beh srv with
      | some p =>
        let q := startAllFrom beh (dictInsert srv.name p st) rest
        (srv.name :: q.1, q.2)
      | none => startAllFrom beh st rest

/-- `MCPClient.start_all`: returns the names successfully started and the
updated process table. -/
def start_all (beh : SpawnBehavior) (st : ProcTable)
    (servers : List MCPServer) : List String × ProcTable :=
  startAllFrom beh st servers

/-! ### Generic dictionary lemmas -/

theorem dictLookup_eq_none (k : String) (l : List (String × α))
    (h : k ∉ l.map Prod.fst) : dictLookup k l = none := by
  induction l with
  | nil => rfl
  | cons hd tl ih =>
    obtain ⟨k', v'⟩ := hd
    simp only [List.map_cons, List.mem_cons, not_or] at h
    have hk : k' ≠ k := fun hh => h.1 hh.symm
    simp [dictLookup, hk, ih h.2]

theorem dictLookup_insert_self (k : String) (v : α) (l : List (String × α)) :
    dictLookup k (dictInsert k v l) = some v := by
  induction l with
  | nil => simp [dictInsert, dictLookup]
  | cons hd tl ih =>
    obtain ⟨k', v'⟩ := hd
    by_cases h : k' = k
    · simp [dictInsert, dictLookup, h]
    · simp [dictInsert, dictLookup, h, ih]

theorem dictLookup_insert_ne (k k' : String) (v : α) (l : List (String × α))
    (h : k' ≠ k) : dictLookup k (dictInsert k' v l) = dictLookup k l := by
  induction l with
  | nil => simp [dictInsert, dictLookup, h]
  | cons hd tl ih =>
    obtain ⟨k0, v0⟩ := hd
    by_cases h0 : k0 = k'
    · subst h0
      simp [dictInsert, dictLookup, h]
    · simp [dictInsert, dictLookup, h0, ih]

theorem mergeEnv_lookup (k : String) (ov : List (String × String))
    (hnodup : (ov.map Prod.fst).Nodup) :
    ∀ base, dictLookup k (mergeEnv base ov) =
      match dictLookup k ov with
      | some v => some v
      | none => dictLookup k base := by
  induction ov with
  | nil => intro base; simp [mergeEnv, dictLookup]
  | cons hd tl ih =>
    intro base
    obtain ⟨k0, v0⟩ := hd
    simp only [List.map_cons, List.nodup_cons] at hnodup
    have hmerge : mergeEnv base ((k0, v0) :: tl) =
        mergeEnv (dictInsert k0 v0 base) tl := rfl
    rw [hmerge, ih hnodup.2 (dictInsert k0 v0 base)]
    by_cases hk : k0 = k
    · subst hk
      have htl : dictLookup k0 tl = none :=
        dictLookup_eq_none k0 tl hnodup.1
      simp [dictLookup, htl, dictLookup_insert_self]
    · simp [dictLookup, hk, dictLookup_insert_ne k k0 v0 base hk]

/-! ### Concrete fixtures -/

/-- Fixture: two descriptors sharing the name `"a"` but with distinct
commands, so the behavior environment can tell them apart. -/
def srvA : MCPServer := ⟨"a", "cmdA", [], []⟩

/-- Fixture: second descriptor named `"a"`. -/
def srvB : MCPServer := ⟨"a", "cmdB", [], []⟩

/-- Fixture behavior: both servers spawn and handshake; the `cmdA` server
advertises `["x"]` and answers with content `"ra"`, the other advertises
`["y"]` and answers with content `"rb"`. -/
def dupBeh : Behavior := fun srv =>
  if srv.command = "cmdA" then
    ⟨true, .ok (), .ok ["x"], fun _ _ => .ok ⟨some "ra", "pa"⟩⟩
  else
    ⟨true, .ok (), .ok ["y"], fun _ _ => .ok ⟨some "rb", "pb"⟩⟩

/-- Fixture inherited environment. -/
def inhEnv : List (String × String) := [("HOME", "/root"), ("SECRET", "s")]

/-- Fixture descriptor with a non-empty env override. -/
def srvE : MCPServer := ⟨"e", "cmdE", [], [("A", "b")]⟩

/-! ### Claims -/

/-- Claim C9 (code bug): the client imposes no bounded wait on any session
step — `_with_session` leaves the session's read timeout unset (`None`) and
wraps no step in a timeout, so a peer that never answers the handshake or
an exchange blocks the caller indefinitely instead of being treated as that
candidate's failure. -/
theorem no_bounded_wait_per_step :
    sessionReadTimeout = none ∧ sessionStepBounded = false :=
  ⟨rfl, rfl⟩

/-- Claim C6 counterexample: with inherited environment
`{HOME:/root, SECRET:s}` and overrides `{A:b}`, `start_all` launches with
the merged environment, but the per-call session passes only `{A:b}` to the
transport, so the spawned session process's environment lacks `SECRET`
(and `HOME`) — it is not the inherited environment merged with the
overrides. -/
theorem session_env_not_merged :
    startAllEnv inhEnv srvE =
      [("HOME", "/root"), ("SECRET", "s"), ("A", "b")] ∧
    sessionEnvParam srvE = some [("A", "b")] ∧
    sessionSpawnEnv [("HOME", "/root")] srvE = [("A", "b")] ∧
    dictLookup "SECRET" (startAllEnv inhEnv srvE) = some "s" ∧
    dictLookup "SECRET" (sessionSpawnEnv [("HOME", "/root")] srvE) = none := by
  refine ⟨by decide, by decide, by decide, by decide, by decide⟩

/-- Claim C6 (amended): `start_all` launches each server with the inherited
environment merged with the descriptor's env overrides, the override
winning on key collision; a per-call session instead passes the
descriptor's overrides alone to the transport (the transport's restricted
default environment when the overrides are empty), with no merge against
the inherited environment. -/
theorem env_merge_semantics (inherited defaultEnv : List (String × String))
    (srv : MCPServer) (k v : String)
    (hnodup : (srv.env.map Prod.fst).Nodup) :
    (dictLookup k srv.env = some v →
      dictLookup k (startAllEnv inherited srv) = some v) ∧
    (dictLookup k srv.env = none →
      dictLookup k (startAllEnv inherited srv) = dictLookup k inherited) ∧
    (srv.env ≠ [] → sessionSpawnEnv defaultEnv srv = srv.env) ∧
    (srv.env = [] → sessionSpawnEnv defaultEnv srv = defaultEnv) := by
  refine ⟨?_, ?_, ?_, ?_⟩
  · intro h
    rw [startAllEnv, mergeEnv_lookup k srv.env hnodup inherited, h]
  · intro h
    rw [startAllEnv, mergeEnv_lookup k srv.env hnodup inherited, h]
  · intro h
    simp [sessionSpawnEnv, sessionEnvParam, h]
  · intro h
    simp [sessionSpawnEnv, sessionEnvParam, h]

/-- Witness for `env_merge_semantics` at the fixture environment. -/
theorem env_merge_semantics_witness :
    dictLookup "A" (startAllEnv inhEnv srvE) = some "b" ∧
    dictLookup "HOME" (startAllEnv inhEnv srvE) = some "/root" ∧
    sessionSpawnEnv [("HOME", "/root")] srvE = [("A", "b")] := by
  have h := env_merge_semantics inhEnv [("HOME", "/root")] srvE "A" "b"
    (by decide)
  have h' := env_merge_semantics inhEnv [("HOME", "/root")] srvE "HOME" "b"
    (by decide)
  exact ⟨h.1 (by decide), by rw [h'.2.1 (by decide)]; decide,
    h.2.2.1 (by decide)⟩

/-- Claim C2 counterexample: with two servers both named `"a"`, the
empty-string `server_name` matches no configured server, yet `call_tool`
succeeds and opens a session instead of failing with a configuration error
before any spawn (Python truthiness treats `""` as no pin); and pinning the
configured name `"a"` yields two candidate descriptors, not exactly one. -/
theorem call_tool_pin_counterexample :
    srvA.name ≠ "" ∧ srvB.name ≠ "" ∧
    (call_tool dupBeh [srvA, srvB] "x" none (some "")).1 =
      .ok (.fromContent "ra") ∧
    MCPEvent.sessionOpen srvA ∈
      (call_tool dupBeh [srvA, srvB] "x" none (some "")).2 ∧
    candidatesOf [srvA, srvB] (some "a") = [srvA, srvB] := by
  refine ⟨by decide, by decide, rfl, by decide, by decide⟩

theorem keepCandidate_of_ne_empty (sn : String) (h1 : sn ≠ "")
    (s : MCPServer) : keepCandidate (some sn) s = (s.name == sn) := by
  simp [keepCandidate, h1]

theorem candidatesOf_pin (servers : List MCPServer) (sn : String)
    (h1 : sn ≠ "") :
    candidatesOf servers (some sn) =
      servers.filter (fun s => s.name == sn) := by
  unfold candidatesOf
  exact List.filter_congr (fun s _ => keepCandidate_of_ne_empty sn h1 s)

/-- Claim C2 (amended): `call_tool` with a non-empty `server_name` matching
no configured server fails with the no-matching-server configuration error
and opens no session (no process is spawned); for a non-empty pinned
`server_name` the candidate list is every configured descriptor bearing
that name, in configured order (exactly one when names are unique); an
empty-string `server_name` is treated as no pin. -/
theorem call_tool_unconfigured_pin (beh : Behavior)
    (servers : List MCPServer) (sn toolName : String)
    (arguments : Option (List (String × String)))
    (h1 : sn ≠ "") (h2 : ∀ s ∈ servers, s.name ≠ sn) :
    (call_tool beh servers toolName arguments (some sn)).1 =
      .error .noMatchingServer ∧
    (call_tool beh servers toolName arguments (some sn)).2 = [] ∧
    (∀ servers' : List MCPServer,
      candidatesOf servers' (some sn) =
        servers'.filter (fun s => s.name == sn)) := by
  have hcand : candidatesOf servers (some sn) = [] := by
    rw [candidatesOf_pin servers sn h1]
    rw [List.filter_eq_nil_iff]
    intro s hs
    simpa using h2 s hs
  refine ⟨?_, ?_, fun servers' => candidatesOf_pin servers' sn h1⟩
  · simp [call_tool, hcand]
  · simp [call_tool, hcand]

/-- Witness for `call_tool_unconfigured_pin` at a concrete registry and
unmatched pin. -/
theorem call_tool_unconfigured_pin_witness :
    (call_tool dupBeh [srvA, srvB] "x" none (some "zzz")).1 =
      .error .noMatchingServer ∧
    (call_tool dupBeh [srvA, srvB] "x" none (some "zzz")).2 = [] := by
  have h := call_tool_unconfigured_pin dupBeh [srvA, srvB] "zzz" "x" none
    (by decide) (by decide)
  exact ⟨h.1, h.2.1⟩

/-- Claim C10 counterexample: with one server named `"a"`, the empty-string
`server_name` matches no configured server, yet `list_tools` returns the
full mapping rather than an empty one (Python truthiness treats `""` as no
filter). -/
theorem list_tools_empty_pin_counterexample :
    srvA.name ≠ "" ∧
    (list_tools dupBeh [srvA] (some "")).1 = [("a", ["x"])] := by
  refine ⟨by decide, by decide⟩

theorem gatherLoop_skip_all (beh : Behavior) (sn : String) (h1 : sn ≠ "")
    (servers : List MCPServer) (h2 : ∀ s ∈ servers, s.name ≠ sn) :
    ∀ acc, gatherLoop beh (some sn) servers acc = (acc, []) := by
  induction servers with
  | nil => intro acc; rfl
  | cons srv rest ih =>
    intro acc
    have hname : srv.name ≠ sn := h2 srv (List.mem_cons_self _ _)
    have hkeep : keepCandidate (some sn) srv = false := by
      rw [keepCandidate_of_ne_empty sn h1]
      simpa using hname
    rw [gatherLoop, hkeep]
    exact ih (fun s hs => h2 s (List.mem_cons_of_mem _ hs)) acc

/-- Claim C10 (amended): `list_tools` with a non-empty `server_name`
matching no configured server returns an empty mapping and opens no
session, raising no error; an empty-string `server_name` instead acts as no
filter, querying every configured server. -/
theorem list_tools_unmatched_pin (beh : Behavior) (servers : List MCPServer)
    (sn : String) (h1 : sn ≠ "") (h2 : ∀ s ∈ servers, s.name ≠ sn) :
    (list_tools beh servers (some sn)).1 = [] ∧
    (list_tools beh servers (some sn)).2 = [] := by
  unfold list_tools
  rw [gatherLoop_skip_all beh sn h1 servers h2 []]
  exact ⟨rfl, rfl⟩

/-- Witness for `list_tools_unmatched_pin` at a concrete registry and
unmatched pin. -/
theorem list_tools_unmatched_pin_witness :
    (list_tools dupBeh [srvA, srvB] (some "zzz")).1 = [] ∧
    (list_tools dupBeh [srvA, srvB] (some "zzz")).2 = [] :=
  list_tools_unmatched_pin dupBeh [srvA, srvB] "zzz" (by decide) (by decide)

/-- Fixture: a third server, named `"c"`, advertising `["y"]` under
`dupBeh`. -/
def srvC : MCPServer := ⟨"c", "cmdC", [], []⟩

theorem runAllLoop_first_success (beh : Behavior) (toolName : String)
    (args : List (String × String)) (pre : List MCPServer) (s : MCPServer)
    (post : List MCPServer) (v : Surfaced)
    (hpre : ∀ t ∈ pre, ∃ e, (try_call beh t toolName args).1 = .error e)
    (hs : (try_call beh s toolName args).1 = .ok v) :
    ∀ last, runAllLoop beh toolName args (pre ++ s :: post) last =
      (.ok v,
       (pre.map (fun t => (try_call beh t toolName args).2)).flatten ++
         (try_call beh s toolName args).2) := by
  induction pre with
  | nil =>
    intro last
    rw [List.nil_append, runAllLoop]
    simp [hs]
  | cons t ts ih =>
    intro last
    obtain ⟨e, he⟩ := hpre t (List.mem_cons_self _ _)
    rw [List.cons_append, runAllLoop]
    simp [he, ih (fun u hu => hpre u (List.mem_cons_of_mem _ hu)) (some e)]

/-- Claim C1: for a non-empty registry and no `server_name`, `call_tool`
attempts the configured servers strictly in registry order, one at a time:
if every server before `s` fails and `s`'s attempt succeeds with `v`, the
call returns `v`, and its whole event trace is the failed prefix's attempts
followed by `s`'s attempt — no candidate after the first success is
contacted. -/
theorem call_tool_first_success (beh : Behavior) (pre : List MCPServer)
    (s : MCPServer) (post : List MCPServer) (toolName : String)
    (arguments : Option (List (String × String))) (v : Surfaced)
    (hpre : ∀ t ∈ pre, ∃ e,
      (try_call beh t toolName (arguments.getD [])).1 = .error e)
    (hs : (try_call beh s toolName (arguments.getD [])).1 = .ok v) :
    call_tool beh (pre ++ s :: post) toolName arguments none =
      (.ok v,
       (pre.map (fun t => (try_call beh t toolName (arguments.getD [])).2)).flatten
         ++ (try_call beh s toolName (arguments.getD [])).2) := by
  have hcand : candidatesOf (pre ++ s :: post) none = pre ++ s :: post := by
    unfold candidatesOf
    rw [List.filter_eq_self]
    intro a _
    rfl
  have hne : (pre ++ s :: post).isEmpty = false := by
    simp
  simp only [call_tool, hcand, hne, Bool.false_eq_true, if_false]
  exact runAllLoop_first_success beh toolName (arguments.getD []) pre s post v
    hpre hs none

/-- Witness for `call_tool_first_success`: `"y"` is not advertised by the
first server but is by the second; the third is never contacted. -/
theorem call_tool_first_success_witness :
    call_tool dupBeh [srvA, srvB, srvC] "y" none none =
      (.ok (.fromContent "rb"),
       [.sessionOpen srvA, .listExchange srvA, .teardown srvA,
        .sessionOpen srvB, .listExchange srvB, .callExchange srvB "y",
        .teardown srvB]) := by
  have hpre : ∀ t ∈ [srvA], ∃ e,
      (try_call dupBeh t "y" ((none : Option (List (String × String))).getD [])).1 =
        .error e := by
    intro t ht
    simp only [List.mem_singleton] at ht
    subst ht
    exact ⟨.toolNotFound, rfl⟩
  have h := call_tool_first_success dupBeh [srvA] srvB [srvC] "y" none
    (.fromContent "rb") hpre rfl
  exact h.trans (by rfl)

theorem runAllLoop_all_fail (beh : Behavior) (toolName : String)
    (args : List (String × String)) (pre : List MCPServer) (s : MCPServer)
    (e : SessionFailure)
    (hpre : ∀ t ∈ pre, ∃ e', (try_call beh t toolName args).1 = .error e')
    (hs : (try_call beh s toolName args).1 = .error e) :
    ∀ last, (runAllLoop beh toolName args (pre ++ [s]) last).1 =
      .error (.toolInvocationFailed toolName (some e)) := by
  induction pre with
  | nil =>
    intro last
    rw [List.nil_append, runAllLoop]
    simp [hs, runAllLoop]
  | cons t ts ih =>
    intro last
    obtain ⟨e', he⟩ := hpre t (List.mem_cons_self _ _)
    rw [List.cons_append, runAllLoop]
    simp [he, ih (fun u hu => hpre u (List.mem_cons_of_mem _ hu)) (some e')]

/-- Claim C7: when every candidate of the failover scan fails, `call_tool`
fails with the aggregated tool-invocation failure carrying the requested
tool name together with the error recorded from the final failed candidate
attempt. -/
theorem call_tool_exhausted (beh : Behavior) (servers : List MCPServer)
    (toolName : String) (arguments : Option (List (String × String)))
    (serverName : Option String) (pre : List MCPServer) (s : MCPServer)
    (e : SessionFailure)
    (hc : candidatesOf servers serverName = pre ++ [s])
    (hpre : ∀ t ∈ pre, ∃ e',
      (try_call beh t toolName (arguments.getD [])).1 = .error e')
    (hs : (try_call beh s toolName (arguments.getD [])).1 = .error e) :
    (call_tool beh servers toolName arguments serverName).1 =
      .error (.toolInvocationFailed toolName (some e)) := by
  have hne : (pre ++ [s]).isEmpty = false := by
    simp
  simp only [call_tool, hc, hne, Bool.false_eq_true, if_false]
  exact runAllLoop_all_fail beh toolName (arguments.getD []) pre s e hpre hs
    none

/-- Witness for `call_tool_exhausted`: `"zz"` is advertised by neither
server, so the call fails carrying the tool name and the last candidate's
tool-not-found error. -/
theorem call_tool_exhausted_witness :
    (call_tool dupBeh [srvA, srvB] "zz" none none).1 =
      .error (.toolInvocationFailed "zz" (some .toolNotFound)) := by
  have hpre : ∀ t ∈ [srvA], ∃ e',
      (try_call dupBeh t "zz" ((none : Option (List (String × String))).getD [])).1 =
        .error e' := by
    intro t ht
    simp only [List.mem_singleton] at ht
    subst ht
    exact ⟨.toolNotFound, rfl⟩
  exact call_tool_exhausted dupBeh [srvA, srvB] "zz" none none [srvA] srvB
    .toolNotFound (by decide) hpre rfl

/-- Whether an event opens a session (spawn plus stream connection). -/
def isOpenEv : MCPEvent → Bool
  | .sessionOpen _ => true
  | _ => false

/-- Whether an event tears a session down (streams closed, process
terminated). -/
def isTeardownEv : MCPEvent → Bool
  | .teardown _ => true
  | _ => false

/-- Number of sessions opened in a trace. -/
def countOpen (tr : List MCPEvent) : Nat := (tr.filter isOpenEv).length

/-- Number of sessions torn down in a trace. -/
def countTeardown (tr : List MCPEvent) : Nat :=
  (tr.filter isTeardownEv).length

theorem countOpen_append (a b : List MCPEvent) :
    countOpen (a ++ b) = countOpen a + countOpen b := by
  simp [countOpen, List.filter_append]

theorem countTeardown_append (a b : List MCPEvent) :
    countTeardown (a ++ b) = countTeardown a + countTeardown b := by
  simp [countTeardown, List.filter_append]

theorem with_session_balanced (beh : Behavior) (srv : MCPServer)
    (op : ServerBehavior → Except SessionFailure α × List MCPEvent)
    (hop : ∀ b, countOpen (op b).2 = 0 ∧ countTeardown (op b).2 = 0) :
    countOpen (with_session beh srv op).2 =
      countTeardown (with_session beh srv op).2 := by
  unfold with_session
  by_cases hs : (beh srv).spawnOk
  · rcases hh : (beh srv).handshake with e | u
    · simp [hs, hh, countOpen, countTeardown, isOpenEv, isTeardownEv]
    · have h1 := (hop (beh srv)).1
      have h2 := (hop (beh srv)).2
      simp only [hs, hh, if_true]
      simp only [countOpen, countTeardown, List.filter_cons, List.filter_append] at h1 h2 ⊢
      simp [isOpenEv, isTeardownEv, h1, h2]
  · simp [hs, countOpen, countTeardown]

theorem try_call_op_no_session (b : ServerBehavior) (srv : MCPServer)
    (toolName : String) (args : List (String × String)) :
    countOpen (match b.listToolsRes with
      | .error e => ((.error e : Except SessionFailure Surfaced), [MCPEvent.listExchange srv])
      | .ok names =>
        if toolName ∈ names then
          match b.callToolRes toolName args with
          | .error e => (.error e, [MCPEvent.listExchange srv, MCPEvent.callExchange srv toolName])
          | .ok r =>
            (.ok (match r.content with
                  | some s => .fromContent s
                  | none => .whole r),
             [MCPEvent.listExchange srv, MCPEvent.callExchange srv toolName])
        else (.error .toolNotFound, [MCPEvent.listExchange srv])).2 = 0 ∧
    countTeardown (match b.listToolsRes with
      | .error e => ((.error e : Except SessionFailure Surfaced), [MCPEvent.listExchange srv])
      | .ok names =>
        if toolName ∈ names then
          match b.callToolRes toolName args with
          | .error e => (.error e, [MCPEvent.listExchange srv, MCPEvent.callExchange srv toolName])
          | .ok r =>
            (.ok (match r.content with
                  | some s => .fromContent s
                  | none => .whole r),
             [MCPEvent.listExchange srv, MCPEvent.callExchange srv toolName])
        else (.error .toolNotFound, [MCPEvent.listExchange srv])).2 = 0 := by
  rcases b.listToolsRes with e | names
  · simp [countOpen, countTeardown, isOpenEv, isTeardownEv]
  · by_cases hmem : toolName ∈ names
    · rcases b.callToolRes toolName args with e | r
      · simp [hmem, countOpen, countTeardown, isOpenEv, isTeardownEv]
      · simp [hmem, countOpen, countTeardown, isOpenEv, isTeardownEv]
    · simp [hmem, countOpen, countTeardown, isOpenEv, isTeardownEv]

theorem try_call_balanced (beh : Behavior) (srv : MCPServer)
    (toolName : String) (args : List (String × String)) :
    countOpen (try_call beh srv toolName args).2 =
      countTeardown (try_call beh srv toolName args).2 := by
  unfold try_call
  exact with_session_balanced beh srv _
    (fun b => try_call_op_no_session b srv toolName args)

theorem runAllLoop_balanced (beh : Behavior) (toolName : String)
    (args : List (String × String)) :
    ∀ (servers : List MCPServer) (last : Option SessionFailure),
      countOpen (runAllLoop beh toolName args servers last).2 =
        countTeardown (runAllLoop beh toolName args servers last).2 := by
  intro servers
  induction servers with
  | nil => intro last; simp [runAllLoop, countOpen, countTeardown]
  | cons srv rest ih =>
    intro last
    rw [runAllLoop]
    rcases hp : (try_call beh srv toolName args).1 with e | v
    · simp [hp, countOpen_append, countTeardown_append,
        try_call_balanced beh srv toolName args, ih (some e)]
    · simp [hp, try_call_balanced beh srv toolName args]

theorem listQuery_balanced (beh : Behavior) (srv : MCPServer) :
    countOpen (listQuery beh srv).2 = countTeardown (listQuery beh srv).2 := by
  unfold listQuery
  refine with_session_balanced beh srv _ (fun b => ?_)
  rcases b.listToolsRes with e | names
  · simp [countOpen, countTeardown, isOpenEv, isTeardownEv]
  · simp [countOpen, countTeardown, isOpenEv, isTeardownEv]

theorem list_for_srv_balanced (beh : Behavior) (srv : MCPServer) :
    countOpen (list_for_srv beh srv).2 =
      countTeardown (list_for_srv beh srv).2 := by
  unfold list_for_srv
  rcases hp : (listQuery beh srv).1 with e | names
  · simpa [hp] using listQuery_balanced beh srv
  · simpa [hp] using listQuery_balanced beh srv

theorem gatherLoop_balanced (beh : Behavior) (serverName : Option String) :
    ∀ (servers : List MCPServer) (acc : List (String × List String)),
      countOpen (gatherLoop beh serverName servers acc).2 =
        countTeardown (gatherLoop beh serverName servers acc).2 := by
  intro servers
  induction servers with
  | nil => intro acc; simp [gatherLoop, countOpen, countTeardown]
  | cons srv rest ih =>
    intro acc
    rw [gatherLoop]
    by_cases hk : keepCandidate serverName srv
    · simp [hk, countOpen_append, countTeardown_append,
        list_for_srv_balanced beh srv, ih]
    · simp [hk, ih]

/-- Claim C4: sessions never leak.  For every behavior of the external
servers (success, handshake failure, exchange failure, timeout expiry, raise
inside the operation), every registry, tool name, arguments and pin, the
full event trace of a `call_tool` call and of a `list_tools` call contains
exactly as many session-open events as teardown events: every session the
runner opened is torn down before the call returns, and no spawned process
outlives the call. -/
theorem sessions_always_torn_down (beh : Behavior)
    (servers : List MCPServer) (toolName : String)
    (arguments : Option (List (String × String)))
    (serverName : Option String) :
    countOpen (call_tool beh servers toolName arguments serverName).2 =
      countTeardown (call_tool beh servers toolName arguments serverName).2 ∧
    countOpen (list_tools beh servers serverName).2 =
      countTeardown (list_tools beh servers serverName).2 := by
  constructor
  · unfold call_tool
    by_cases hc : (candidatesOf servers serverName).isEmpty
    · simp [hc, countOpen, countTeardown]
    · simp [hc, runAllLoop_balanced beh toolName (arguments.getD [])
        (candidatesOf servers serverName) none]
  · unfold list_tools
    exact gatherLoop_balanced beh serverName servers []

/-- Claim C5: within each candidate session of `call_tool` the tool-listing
exchange is issued before any invocation exchange, and the invocation
exchange is issued only when the listing succeeded and advertises the
requested tool; when an established session's listing succeeds but the tool
is absent, that candidate's attempt fails with the tool-not-found error
without any invocation exchange on that server, and the failover loop
advances to the next candidate. -/
theorem list_before_call (beh : Behavior) (srv : MCPServer)
    (toolName : String) (args : List (String × String)) :
    (MCPEvent.callExchange srv toolName ∈ (try_call beh srv toolName args).2 →
      ∃ names, (beh srv).listToolsRes = .ok names ∧ toolName ∈ names ∧
        List.Sublist
          [MCPEvent.listExchange srv, MCPEvent.callExchange srv toolName]
          (try_call beh srv toolName args).2) ∧
    (∀ names, (beh srv).spawnOk = true → (beh srv).handshake = .ok () →
      (beh srv).listToolsRes = .ok names → toolName ∉ names →
      (try_call beh srv toolName args).1 = .error .toolNotFound ∧
      MCPEvent.callExchange srv toolName ∉ (try_call beh srv toolName args).2) ∧
    (∀ (rest : List MCPServer) (last : Option SessionFailure)
      (e : SessionFailure), (try_call beh srv toolName args).1 = .error e →
      runAllLoop beh toolName args (srv :: rest) last =
        ((runAllLoop beh toolName args rest (some e)).1,
         (try_call beh srv toolName args).2 ++
           (runAllLoop beh toolName args rest (some e)).2)) := by
  refine ⟨?_, ?_, ?_⟩
  · intro hmem
    unfold try_call with_session at hmem ⊢
    by_cases hs : (beh srv).spawnOk
    · rcases hh : (beh srv).handshake with e | u
      · simp [hs, hh] at hmem
      · rcases hl : (beh srv).listToolsRes with e | names
        · simp [hs, hh, hl] at hmem
        · by_cases htool : toolName ∈ names
          · refine ⟨names, rfl, htool, ?_⟩
            rcases hc : (beh srv).callToolRes toolName args with e | r
            · simp only [hs, hh, hl, htool, hc, if_true, if_pos]
              exact .cons _ (.cons₂ _ (.cons₂ _ (List.nil_sublist _)))
            · simp only [hs, hh, hl, htool, hc, if_true, if_pos]
              exact .cons _ (.cons₂ _ (.cons₂ _ (List.nil_sublist _)))
          · simp [hs, hh, hl, htool] at hmem
    · simp [hs] at hmem
  · intro names hs hh hl htool
    unfold try_call with_session
    simp [hs, hh, hl, htool]
  · intro rest last e hp
    rw [runAllLoop]
    simp [hp]

/-- Witness for `list_before_call`: the fixture server advertises `["x"]`
but not `"u"`, so its attempt fails with tool-not-found and issues no
invocation exchange. -/
theorem list_before_call_witness :
    (try_call dupBeh srvA "u" []).1 = .error .toolNotFound ∧
    MCPEvent.callExchange srvA "u" ∉ (try_call dupBeh srvA "u" []).2 :=
  (list_before_call dupBeh srvA "u" []).2.1 ["x"] rfl rfl rfl (by decide)

theorem dictInsert_of_not_mem_keys (k : String) (v : α)
    (l : List (String × α)) (h : k ∉ l.map Prod.fst) :
    dictInsert k v l = l ++ [(k, v)] := by
  induction l with
  | nil => rfl
  | cons hd tl ih =>
    obtain ⟨k0, v0⟩ := hd
    simp only [List.map_cons, List.mem_cons, not_or] at h
    have hk : k0 ≠ k := fun hh => h.1 hh.symm
    simp [dictInsert, hk, ih h.2]

theorem gatherLoop_none_entries (beh : Behavior) :
    ∀ (servers : List MCPServer) (acc : List (String × List String)),
      (servers.map (·.name)).Nodup →
      (∀ srv ∈ servers, srv.name ∉ acc.map Prod.fst) →
      (gatherLoop beh none servers acc).1 =
        acc ++ servers.map (fun srv => (srv.name, listedNames beh srv)) := by
  intro servers
  induction servers with
  | nil => intro acc _ _; simp [gatherLoop]
  | cons srv rest ih =>
    intro acc hnodup hacc
    simp only [List.map_cons, List.nodup_cons] at hnodup
    rw [gatherLoop]
    have hkeep : keepCandidate none srv = true := rfl
    simp only [hkeep, if_true]
    have hins : dictInsert srv.name (list_for_srv beh srv).1 acc =
        acc ++ [(srv.name, listedNames beh srv)] :=
      dictInsert_of_not_mem_keys _ _ acc (hacc srv (List.mem_cons_self _ _))
    rw [hins]
    have hacc' : ∀ t ∈ rest,
        t.name ∉ (acc ++ [(srv.name, listedNames beh srv)]).map Prod.fst := by
      intro t ht
      simp only [List.map_append, List.mem_append, List.map_cons,
        List.map_nil, List.mem_singleton, not_or]
      refine ⟨hacc t (List.mem_cons_of_mem _ ht), ?_⟩
      intro he
      exact hnodup.1 (he ▸ List.mem_map_of_mem (·.name) ht)
    rw [ih (acc ++ [(srv.name, listedNames beh srv)]) hnodup.2 hacc']
    simp

/-- Claim C3 counterexample: two configured servers share the name `"a"`
with different advertised tools; `list_tools()` returns a single entry (the
later-queried duplicate overwrites the earlier), not one entry per
configured server. -/
theorem list_tools_dup_counterexample :
    (list_tools dupBeh [srvA, srvB] none).1 = [("a", ["y"])] ∧
    (list_tools dupBeh [srvA, srvB] none).1.length = 1 ∧
    [srvA, srvB].length = 2 := by
  refine ⟨by decide, by decide, by decide⟩

/-- Claim C3 (amended): for a registry with pairwise-distinct server names,
`list_tools()` returns exactly one entry per configured server, in
configured order, where a server whose query failed maps to the empty
list; the aggregate call itself never fails — it returns a mapping for
every registry, in particular the empty mapping for the empty registry.
When names are duplicated, the duplicates collapse into one entry holding
the last-queried duplicate's result. -/
theorem list_tools_entries (beh : Behavior) (servers : List MCPServer)
    (hnodup : (servers.map (·.name)).Nodup) :
    (list_tools beh servers none).1 =
      servers.map (fun srv => (srv.name, listedNames beh srv)) ∧
    (∀ srv e, (listQuery beh srv).1 = .error e → listedNames beh srv = []) := by
  constructor
  · unfold list_tools
    simpa using gatherLoop_none_entries beh servers [] hnodup (by simp)
  · intro srv e h
    unfold listedNames list_for_srv
    simp [h]

/-- Witness for `list_tools_entries` on a two-server registry with distinct
names. -/
theorem list_tools_entries_witness :
    (list_tools dupBeh [srvA, srvC] none).1 = [("a", ["x"]), ("c", ["y"])] :=
  ((list_tools_entries dupBeh [srvA, srvC] (by decide)).1).trans (by decide)

theorem startAllFrom_preserves_live (beh : SpawnBehavior) :
    ∀ (servers : List MCPServer) (st : ProcTable) (n : String),
      trackedLive st n = true →
      dictLookup n (startAllFrom beh st servers).2 = dictLookup n st := by
  intro servers
  induction servers with
  | nil => intro st n _; rfl
  | cons srv rest ih =>
    intro st n h
    rw [startAllFrom]
    by_cases hl : trackedLive st srv.name = true
    · simp only [hl, if_true]
      exact ih st n h
    · simp only [hl, if_false]
      rcases hb : beh srv with _ | p
      · exact ih st n h
      · have hne : srv.name ≠ n := by
          intro he
          rw [he] at hl
          exact hl h
        have hlive : trackedLive (dictInsert srv.name p st) n = true := by
          unfold trackedLive
          rw [dictLookup_insert_ne n srv.name p st hne]
          exact h
        exact (ih (dictInsert srv.name p st) n hlive).trans
          (dictLookup_insert_ne n srv.name p st hne)

theorem startAllFrom_started (beh : SpawnBehavior) :
    ∀ (servers : List MCPServer), (servers.map (·.name)).Nodup →
      ∀ (st st' : ProcTable),
      (∀ t ∈ servers, trackedLive st' t.name = trackedLive st t.name) →
      (startAllFrom beh st' servers).1 =
        (servers.filter
          (fun srv => !trackedLive st srv.name && (beh srv).isSome)).map
          (·.name) := by
  intro servers
  induction servers with
  | nil => intro _ st st' _; rfl
  | cons srv rest ih =>
    intro hnodup st st' hagree
    simp only [List.map_cons, List.nodup_cons] at hnodup
    rw [startAllFrom]
    have hagr := hagree srv (List.mem_cons_self _ _)
    have hrest : ∀ t ∈ rest, trackedLive st' t.name = trackedLive st t.name :=
      fun t ht => hagree t (List.mem_cons_of_mem _ ht)
    rw [List.filter_cons]
    by_cases hl : trackedLive st srv.name = true
    · rw [hagr, hl]
      simp only [if_true, Bool.not_true, Bool.false_and, Bool.false_eq_true,
        if_false]
      exact ih hnodup.2 st st' hrest
    · have hl' : trackedLive st srv.name = false := by
        simpa using hl
      rw [hagr, hl']
      simp only [Bool.false_eq_true, if_false, Bool.not_false, Bool.true_and]
      rcases hb : beh srv with _ | p
      · simp only [Option.isSome_none, Bool.false_eq_true, if_false]
        exact ih hnodup.2 st st' hrest
      · simp only [Option.isSome_some, if_true, List.map_cons]
        have hrest' : ∀ t ∈ rest,
            trackedLive (dictInsert srv.name p st') t.name =
              trackedLive st t.name := by
          intro t ht
          have hne : srv.name ≠ t.name := by
            intro he
            exact hnodup.1 (he ▸ List.mem_map_of_mem (·.name) ht)
          unfold trackedLive
          rw [dictLookup_insert_ne t.name srv.name p st' hne]
          exact hrest t ht
        rw [ih hnodup.2 st (dictInsert srv.name p st') hrest']

theorem startAllFrom_live_after (beh : SpawnBehavior)
    (halive : ∀ srv p, beh srv = some p → p.alive = true) :
    ∀ (servers : List MCPServer) (st : ProcTable) (n : String),
      n ∈ (startAllFrom beh st servers).1 →
      trackedLive (startAllFrom beh st servers).2 n = true := by
  intro servers
  induction servers with
  | nil =>
    intro st n h
    simp [startAllFrom] at h
  | cons srv rest ih =>
    intro st n h
    rw [startAllFrom] at h ⊢
    by_cases hl : trackedLive st srv.name = true
    · simp only [hl, if_true] at h ⊢
      exact ih st n h
    · simp only [hl, if_false] at h ⊢
      rcases hb : beh srv with _ | p
      · rw [hb] at h
        exact ih st n h
      · rw [hb] at h
        rcases List.mem_cons.mp h with he | hm
        · subst he
          have hlive :
              trackedLive (dictInsert srv.name p st) srv.name = true := by
            unfold trackedLive
            rw [dictLookup_insert_self]
            exact halive srv p hb
          have hlk : dictLookup srv.name
              (startAllFrom beh (dictInsert srv.name p st) rest).2 =
                some p := by
            rw [startAllFrom_preserves_live beh rest
              (dictInsert srv.name p st) srv.name hlive]
            exact dictLookup_insert_self _ _ _
          have hres : trackedLive
              (startAllFrom beh (dictInsert srv.name p st) rest).2
              srv.name = true := by
            unfold trackedLive
            rw [hlk]
            exact halive srv p hb
          exact hres
        · exact ih (dictInsert srv.name p st) n hm

/-- Claim C8: `start_all` skips every server already tracked with a live
process (its table entry is untouched and it is not re-spawned), so a
second consecutive call reports only newly started names; and a spawn
failure for one server neither aborts the remaining servers nor appears in
the returned success set: the reported names are exactly the configured
servers that were not tracked-live and whose spawn succeeded, in configured
order. -/
theorem start_all_semantics (beh : SpawnBehavior) (st : ProcTable)
    (servers : List MCPServer) (hnodup : (servers.map (·.name)).Nodup) :
    (start_all beh st servers).1 =
      (servers.filter
        (fun srv => !trackedLive st srv.name && (beh srv).isSome)).map
        (·.name) ∧
    (∀ n, trackedLive st n = true →
      dictLookup n (start_all beh st servers).2 = dictLookup n st) ∧
    ((∀ srv p, beh srv = some p → p.alive = true) →
      ∀ n, n ∈ (start_all beh (start_all beh st servers).2 servers).1 →
        n ∉ (start_all beh st servers).1) := by
  refine ⟨?_, ?_, ?_⟩
  · exact startAllFrom_started beh servers hnodup st st (fun t _ => rfl)
  · intro n h
    exact startAllFrom_preserves_live beh servers st n h
  · intro halive n h2 h1
    have hlive : trackedLive (startAllFrom beh st servers).2 n = true :=
      startAllFrom_live_after beh halive servers st n h1
    have hs2 := startAllFrom_started beh servers hnodup
      (startAllFrom beh st servers).2 (startAllFrom beh st servers).2
      (fun t _ => rfl)
    simp only [start_all] at h2
    rw [hs2] at h2
    rcases List.mem_map.mp h2 with ⟨srv, hmem, hname⟩
    have hpred := (List.mem_filter.mp hmem).2
    rw [hname] at hpred
    simp only [Bool.and_eq_true, Bool.not_eq_true'] at hpred
    rw [hlive] at hpred
    simp at hpred

/-- Fixture spawn behavior: a server named `"a"` spawns an always-alive
process; any other server fails to spawn. -/
def spawnFix : SpawnBehavior := fun srv =>
  if srv.name = "a" then some ⟨1, true⟩ else none

/-- Witness for `start_all_semantics`: from an empty table, `"a"` starts
and the failing `"c"` is omitted without aborting the call. -/
theorem start_all_semantics_witness :
    (start_all spawnFix [] [srvA, srvC]).1 = ["a"] :=
  ((start_all_semantics spawnFix [] [srvA, srvC] (by decide)).1).trans
    (by decide)
